import Mathlib

/-
Verification development for the dustcollector repository (Go).
The Go source is shallowly embedded: Go slices become List, Go string
pointers become String values (every comparison in the source first
dereferences, so pointer identity is never observed), fallible provider
calls become Except, and the concurrent pipeline is modelled by the
sequential function it computes (scheduling only permutes work order;
the claims under study are order independent or stated directly on the
data). Go int64 sizes become Int, float64 rates become Rat.
-/

namespace DustCollector

/-- Embeds Go containsString (part_000): linear scan with == on values. -/
def containsString : List String → String → Bool
  | [], _ => false
  | value :: rest, searchStr => if value == searchStr then true else containsString rest searchStr

/-- Embeds Go dedupeString (part_000): fold that appends a value only when
it is not already present in the accumulator. -/
def dedupeString (strSlice : List String) : List String :=
  strSlice.foldl
    (fun returnSlice value =>
      if containsString returnSlice value then returnSlice else returnSlice ++ [value])
    []

/-- Embeds Go dedupeStringPointer (part_000). The Go version walks a slice of
string pointers but compares dereferenced values, so on the value level it is
the same algorithm as dedupeString. -/
def dedupeStringPointer (strSlice : List String) : List String :=
  dedupeString strSlice

/-- Embeds Go makeBatchesStringPointer (part_000): numBatches = len/B full
slices of width B taken in order, then one remainder slice when len % B > 0.
Go slice s[a:b] is (s.drop a).take (b - a). Total only for B >= 1; the B = 0
case is modelled separately by makeBatchesStringPointerChecked. -/
def makeBatchesStringPointer (strSlice : List String) (batchSize : Nat) : List (List String) :=
  let numBatches := strSlice.length / batchSize
  let remainder := strSlice.length % batchSize
  let full := (List.range numBatches).map
    (fun i => (strSlice.drop (i * batchSize)).take batchSize)
  if remainder > 0 then full ++ [strSlice.drop (strSlice.length - remainder)] else full

/-- Go integer division and modulo panic when the divisor is zero, so the call
makeBatchesStringPointer(s, 0) crashes the process. This wrapper makes that
partiality explicit: none models the runtime panic. -/
def makeBatchesStringPointerChecked (strSlice : List String) (batchSize : Nat) :
    Option (List (List String)) :=
  if batchSize = 0 then none else some (makeBatchesStringPointer strSlice batchSize)

/-- Specification side definition for claim C9: keep the first occurrence of
each string, in original order, by dropping every later copy. Used only to be
compared with dedupeString, which is translated from the source. -/
def firstOccurrenceDedupe : List String → List String
  | [] => []
  | x :: xs => x :: firstOccurrenceDedupe (xs.filter (fun y => !(x == y)))
termination_by l => l.length
decreasing_by
  simp only [List.length_cons]
  exact Nat.lt_succ_of_le (List.length_filter_le _ xs)

/-- Embeds the fields of ec2.Snapshot that the analysed code reads. OwnerId,
Tags and Description are only used by the CSV export wrappers, which are out
of scope. StartTime is modelled as an integer timestamp, VolumeSize (int64
pointer, always dereferenced) as Int. -/
structure Snapshot where
  snapshotId : String
  volumeId : String
  volumeSize : Int
  startTime : Int
deriving DecidableEq, Repr

/-- Embeds the read fields of ec2.Volume. -/
structure Volume where
  volumeId : String
deriving DecidableEq, Repr

/-- Embeds the read fields of ec2.Image. A block device mapping is read as
bdm.Ebs (may be nil) then bdm.Ebs.SnapshotId (may be nil), hence the nested
Option. -/
structure Image where
  imageId : String
  blockDeviceMappings : List (Option (Option String))
deriving DecidableEq, Repr

/-- Embeds the read fields of autoscaling.LaunchConfiguration. The source
dereferences lc.ImageId and lc.LaunchConfigurationName unconditionally, so
they are plain strings; a mapping is read as bdm.Ebs (nil checked) then
bdm.Ebs.SnapshotId (nil checked). -/
structure LaunchConfiguration where
  launchConfigurationName : String
  imageId : String
  blockDeviceMappings : List (Option (Option String))
deriving DecidableEq, Repr

/-- Embeds the read fields of ec2.LaunchTemplateVersion. The source reads
lt.LaunchTemplateData.ImageId and lt.LaunchTemplateName unconditionally and
reads bdm.Ebs.SnapshotId with a nil check only on the SnapshotId, so a
mapping is a single Option. -/
structure LaunchTemplateVersion where
  launchTemplateName : String
  imageId : String
  blockDeviceMappings : List (Option String)
deriving DecidableEq, Repr

/-- Embeds the read fields of autoscaling.Group: the group name, the optional
LaunchConfigurationName pointer, and the optional LaunchTemplate pointer whose
LaunchTemplateName pointer is itself optional. -/
structure AutoscalingGroup where
  autoScalingGroupName : String
  launchConfigurationName : Option String
  launchTemplate : Option (Option String)
deriving DecidableEq, Repr

/-- Embeds the Nugget struct of dustcollector.go: one snapshot plus the
metadata added by enrichment. The parentBar pointer is not modelled here; in
setRecommendations it always denotes the Bar the nugget is iterated from, and
the embedding of that function uses the enclosing Bar directly. -/
structure Nugget where
  snap : Snapshot
  hasVol : Bool
  amiIds : List String
  amiSharedWith : List String
  lcs : List String
  lts : List String
  asgs : List String
deriving DecidableEq, Repr

/-- Embeds the Bar struct of dustcollector.go: snapshots grouped by volume. -/
structure Bar where
  volumeId : String
  nuggets : List Nugget
  hasVol : Bool
deriving DecidableEq, Repr

/-- Embeds Go lcInASGs (part_000): scan all autoscaling groups and collect the
names of those whose LaunchConfigurationName (when present) equals lcName. -/
def lcInASGs (lcName : String) (allAsgs : List AutoscalingGroup) : Bool × List String :=
  allAsgs.foldl
    (fun acc asg =>
      match asg.launchConfigurationName with
      | some asgLcName =>
        if asgLcName == lcName then (true, acc.2 ++ [asg.autoScalingGroupName]) else acc
      | none => acc)
    (false, [])

/-- Embeds Go ltInASGs (part_000): scan all autoscaling groups and collect the
names of those whose LaunchTemplate.LaunchTemplateName (both pointers present)
equals ltName. -/
def ltInASGs (ltName : String) (allAsgs : List AutoscalingGroup) : Bool × List String :=
  allAsgs.foldl
    (fun acc asg =>
      match asg.launchTemplate with
      | some (some asgLtName) =>
        if asgLtName == ltName then (true, acc.2 ++ [asg.autoScalingGroupName]) else acc
      | _ => acc)
    (false, [])

/-- Embeds Go lcsWithSnapImage (part_000): for each launch configuration,
append its name when its image id matches, and again for every block device
mapping whose snapshot id matches. -/
def lcsWithSnapImage (lcs : List LaunchConfiguration) (snapshotId imageId : String) :
    List String :=
  lcs.foldl
    (fun acc lc =>
      let acc := if lc.imageId == imageId then acc ++ [lc.launchConfigurationName] else acc
      lc.blockDeviceMappings.foldl
        (fun acc bdm =>
          match bdm with
          | some (some bdmSnap) =>
            if bdmSnap == snapshotId then acc ++ [lc.launchConfigurationName] else acc
          | _ => acc)
        acc)
    []

/-- Embeds Go ltsWithSnapImage (part_000): for each launch template version,
append its name when its image id matches, and again for every block device
mapping whose snapshot id matches. -/
def ltsWithSnapImage (lts : List LaunchTemplateVersion) (snapshotId imageId : String) :
    List String :=
  lts.foldl
    (fun acc lt =>
      let acc := if lt.imageId == imageId then acc ++ [lt.launchTemplateName] else acc
      lt.blockDeviceMappings.foldl
        (fun acc bdmSnap =>
          match bdmSnap with
          | some sid => if sid == snapshotId then acc ++ [lt.launchTemplateName] else acc
          | none => acc)
        acc)
    []

/-- Embeds Expedition.addBar (dustcollector.go): append the nugget to every
existing Bar with the same volume id; when none matches, append a fresh Bar
whose HasVol is copied from this first member. -/
def addBar (bars : List Bar) (n : Nugget) : List Bar :=
  if bars.any (fun bar => bar.volumeId == n.snap.volumeId) then
    bars.map
      (fun bar =>
        if bar.volumeId == n.snap.volumeId then
          { bar with nuggets := bar.nuggets ++ [n] }
        else bar)
  else
    bars ++ [{ volumeId := n.snap.volumeId, nuggets := [n], hasVol := n.hasVol }]

/-- Embeds Expedition.addBars (dustcollector.go): fold addBar over the nugget
collection, starting from the empty Bars slice of a fresh Expedition. -/
def addBars (nuggets : List Nugget) : List Bar :=
  nuggets.foldl addBar []


/-- Embeds the deletability test of setRecommendations (dustcollector.go):
len(nug.ASGs) == 0 && len(nug.AMISharedWith) == 0. -/
def deletableNugget (nug : Nugget) : Bool :=
  nug.asgs.length == 0 && nug.amiSharedWith.length == 0

/-- Embeds the expression *b.Nuggets[0].Snap.VolumeSize used by the cost loop
of setRecommendations. Go would panic on an empty Bar; every Bar built by
addBars is nonempty, and the 0 default is never reached on such bars. -/
def barFirstVolumeSize (b : Bar) : Int :=
  match b.nuggets with
  | [] => 0
  | n :: _ => n.snap.volumeSize

/-- Result record of the embedded setRecommendations: the four deletion plan
sequences, the barsToDelete working list, the two retained counters, and the
cost figures. The rendered message strings are a fixed formatting of these
fields and are not modelled further. -/
structure Recs where
  ltsToDelete : List String
  lcsToDelete : List String
  amiToDelete : List String
  snapToDelete : List String
  barsToDelete : List Bar
  countAsgShare : Nat
  countHasVol : Nat
  totalGbs : Int
  totalSavings : Rat

/-- Embeds the inner nugget loop body of setRecommendations: a deletable
nugget appends its LTs, LCs, AMI ids and snapshot id to the plan lists and
its parent Bar (the enclosing one) to barsToDelete; otherwise the ASG or
shared counter is incremented. -/
def nugStep (bar : Bar) (a : Recs) (nug : Nugget) : Recs :=
  if deletableNugget nug then
    { a with
      ltsToDelete := a.ltsToDelete ++ nug.lts
      lcsToDelete := a.lcsToDelete ++ nug.lcs
      amiToDelete := a.amiToDelete ++ nug.amiIds
      snapToDelete := a.snapToDelete ++ [nug.snap.snapshotId]
      barsToDelete := a.barsToDelete ++ [bar] }
  else
    { a with countAsgShare := a.countAsgShare + 1 }

/-- Embeds the outer bar loop body of setRecommendations: bars whose volume
still exists only bump countHasVol; the nuggets of the others are classified
one by one. -/
def recStep (acc : Recs) (bar : Bar) : Recs :=
  if !bar.hasVol then
    bar.nuggets.foldl (nugStep bar) acc
  else
    { acc with countHasVol := acc.countHasVol + 1 }

/-- Embeds Expedition.setRecommendations (dustcollector.go): classify every
bar and nugget, dedupe the four plan lists, then sum the first member volume
size of every barsToDelete entry whose HasVol is false and multiply by the
per GB month rate. -/
def setRecommendationsCore (bars : List Bar) (ebsSnapRate : Rat) : Recs :=
  let r0 : Recs :=
    { ltsToDelete := [], lcsToDelete := [], amiToDelete := [], snapToDelete := []
      barsToDelete := [], countAsgShare := 0, countHasVol := 0, totalGbs := 0
      totalSavings := 0 }
  let r := bars.foldl recStep r0
  let r :=
    { r with
      ltsToDelete := dedupeString r.ltsToDelete
      lcsToDelete := dedupeString r.lcsToDelete
      amiToDelete := dedupeString r.amiToDelete
      snapToDelete := dedupeString r.snapToDelete }
  let totalGbs :=
    r.barsToDelete.foldl (fun t b => if !b.hasVol then t + barFirstVolumeSize b else t) 0
  { r with totalGbs := totalGbs, totalSavings := (totalGbs : Rat) * ebsSnapRate }

/-- Specification side definition for claim C2, following the words of the
spec: sum the volumeSize of the first member only of each deletable
VolumeGroup, each such group counted exactly once. Used only to be compared
with the cost computed by setRecommendationsCore. -/
def specCostOncePerGroup (bars : List Bar) : Int :=
  (bars.map
    (fun bar =>
      if !bar.hasVol && bar.nuggets.any deletableNugget then barFirstVolumeSize bar else 0)).sum

/-- Abstract cloud provider: one Except valued field per describe operation
the pipeline consumes. An error value models a ProviderError from that call.
The paginated launch config, launch template and autoscaling describes are
modelled by their flattened result, since only the concatenated list is read. -/
structure Provider where
  getAccount : Except String String
  snapshotPages : Except String (List (List Snapshot))
  describeVolume : String → Except String (List Volume)
  launchConfigs : Except String (List LaunchConfiguration)
  launchTemplates : Except String (List LaunchTemplateVersion)
  images : Except String (List Image)
  asgs : Except String (List AutoscalingGroup)
  imageShared : String → Except String (List String)

/-- Embeds the mutation block of populateNuggets (dustcollector.go) for one
image block device mapping against one nugget: when the mapping carries this
snapshot id, append the image id to AMIIDs, assign (not append) LCs and LTs
from the lookup helpers, then run the two ASG loops, each iteration of which
overwrites snap.ASGs with the matches of the current name, and finally assign
AMISharedWith from the imageSharedTo call, which can fail. -/
def applyBdm (p : Provider) (lcs : List LaunchConfiguration)
    (lts : List LaunchTemplateVersion) (asgs : List AutoscalingGroup)
    (imageId : String) (snap : Nugget) (bdm : Option (Option String)) :
    Except String Nugget :=
  match bdm with
  | some (some bdmSnapId) =>
    if snap.snap.snapshotId == bdmSnapId then do
      let amiIds := snap.amiIds ++ [imageId]
      let lcsFound := lcsWithSnapImage lcs snap.snap.snapshotId imageId
      let ltsFound := ltsWithSnapImage lts snap.snap.snapshotId imageId
      let asgs1 := lcsFound.foldl (fun _ lc => (lcInASGs lc asgs).2) snap.asgs
      let asgs2 := ltsFound.foldl (fun _ lt => (ltInASGs lt asgs).2) asgs1
      let shared ← p.imageShared imageId
      pure
        { snap with
          amiIds := amiIds, lcs := lcsFound, lts := ltsFound
          asgs := asgs2, amiSharedWith := shared }
    else pure snap
  | _ => pure snap

/-- Embeds Expedition.populateNuggets (dustcollector.go): fetch launch
configs, launch templates, owned images and autoscaling groups (each fetch
can abort with a ProviderError), then run the image over nugget over mapping
triple loop, propagating the first imageSharedTo error. -/
def populateNuggets (p : Provider) (nuggets : List Nugget) :
    Except String (List Nugget) := do
  let lcs ← p.launchConfigs
  let lts ← p.launchTemplates
  let images ← p.images
  let asgs ← p.asgs
  images.foldlM
    (fun ns image =>
      ns.mapM (fun snap => image.blockDeviceMappings.foldlM
        (applyBdm p lcs lts asgs image.imageId) snap))
    nuggets

/-- The match test of the populateNuggets triple loop for one block device
mapping against one record: both pointers present and the mapped snapshot id
equals the snapshot id of the record. An imageSharedTo call happens exactly
at such matches. -/
def bdmMatchesSnap (snap : Nugget) (bdm : Option (Option String)) : Bool :=
  match bdm with
  | some (some bdmSnapId) => snap.snap.snapshotId == bdmSnapId
  | _ => false

/-- Whether some block device mapping of the image matches the record, that
is, whether the populateNuggets loop reaches the mutation block (and hence
the imageSharedTo call) for this image and record. -/
def imageMatchesNugget (image : Image) (nug : Nugget) : Bool :=
  image.blockDeviceMappings.any (bdmMatchesSnap nug)

/-- Embeds the pagination contract of svc.DescribeSnapshotsPages as driven by
the callback of getSnapshots (dustcollector.go): the callback increments
pageNum, processes the page, and returns pageNum <= maxPages; the SDK fetches
the next page only while the callback returns true and pages remain. The
result is the list of pages the callback processed. -/
def processedPages (pages : List (List Snapshot)) (maxPages : Nat) : List (List Snapshot) :=
  go 0 pages
where
  go : Nat → List (List Snapshot) → List (List Snapshot)
    | _, [] => []
    | pageNum, page :: rest =>
      let pageNum := pageNum + 1
      page :: (if pageNum ≤ maxPages then go pageNum rest else [])

/-- Embeds the date filter applied to each page inside the getSnapshots
callback: keep snapshots whose StartTime is before the cutoff date. -/
def filterPage (cutoffDate : Int) (page : List Snapshot) : List Snapshot :=
  page.filter (fun snap => snap.startTime < cutoffDate)

/-- Embeds Expedition.buildNuggets together with Expedition.describeVolumes
(dustcollector.go) for one queued page: collect the page volume ids, dedupe
them, split them into batches of volBatchSize, and describe each volume of
each batch individually. The error of an individual DescribeVolumes call is
discarded (Go: r, _ := svc.DescribeVolumes(&dvi)), in which case the reply
contributes no volumes. Found volumes are appended to the global realVols
accumulator, and each page nugget is marked HasVol when any accumulated
volume carries its volume id. Faithful only for volBatchSize >= 1: at 0 the
Go batch splitter panics on division by zero (modelled by
makeBatchesStringPointerChecked, claim C10), so every theorem that
quantifies over volBatchSize carries the bound 1 <= volBatchSize. -/
def buildNuggetsPage (p : Provider) (volBatchSize : Nat) (realVols : List Volume)
    (page : List Snapshot) : List Volume × List Nugget :=
  let inVolsD := dedupeStringPointer (page.map (fun snap => snap.volumeId))
  let batchVols := makeBatchesStringPointer inVolsD volBatchSize
  let newVols := batchVols.flatMap
    (fun batch => batch.flatMap
      (fun vol =>
        match p.describeVolume vol with
        | Except.ok vols => vols
        | Except.error _ => []))
  let realVols := realVols ++ newVols
  let nuggets := page.map
    (fun snap =>
      { snap := snap
        hasVol := realVols.any (fun vol => vol.volumeId == snap.volumeId)
        amiIds := [], amiSharedWith := [], lcs := [], lts := [], asgs := [] })
  (realVols, nuggets)

/-- The pure part of the intake stage for a given list of provider pages:
paginate, date filter every processed page, drop pages that are empty after
filtering (no enrichment task is spawned for them), and run buildNuggetsPage
on the rest, threading the global realVols accumulator. Named so that
statements can refer to the record collection the intake produces. -/
def buildAllNuggets (p : Provider) (cutoffDate : Int) (maxPages : Nat)
    (volBatchSize : Nat) (pages : List (List Snapshot)) : List Nugget :=
  (((processedPages pages maxPages).map (filterPage cutoffDate)).foldl
    (fun (acc : List Volume × List Nugget) page =>
      if page.length > 0 then
        let step := buildNuggetsPage p volBatchSize acc.1 page
        (step.1, acc.2 ++ step.2)
      else acc)
    ([], [])).2

/-- Embeds Expedition.getSnapshots (dustcollector.go): fetch the snapshot
pages (a failure is the intake ProviderError) and build the nugget
collection. The concurrent queue is modelled by processing pages in arrival
order. -/
def getSnapshots (p : Provider) (cutoffDate : Int) (maxPages : Nat)
    (volBatchSize : Nat) : Except String (List Nugget) := do
  let pages ← p.snapshotPages
  pure (buildAllNuggets p cutoffDate maxPages volBatchSize pages)

/-- Embeds Expedition.Start (dustcollector.go): resolve the account, run the
snapshot intake, enrich every nugget, then build bars and recommendations.
Any error returned by a stage aborts the run and no recommendations exist.
The date filter parse of setDateFilter is a configuration check on a constant
string and is modelled by the already parsed cutoffDate. -/
def startRun (p : Provider) (cutoffDate : Int) (maxPages : Nat)
    (volBatchSize : Nat) (ebsSnapRate : Rat) : Except String Recs := do
  let _account ← p.getAccount
  let nuggets ← getSnapshots p cutoffDate maxPages volBatchSize
  let nuggets ← populateNuggets p nuggets
  let bars := addBars nuggets
  pure (setRecommendationsCore bars ebsSnapRate)

/-- Embeds the VolumeBatchSize handling of New (dustcollector.go): the
default of 30 is applied only when the input pointer is nil; any non nil
value, including 0, is accepted without validation. -/
def newVolBatchSize (volumeBatchSize : Option Nat) : Nat :=
  match volumeBatchSize with
  | none => 30
  | some v => v

/-- Invariant of the Bars slice maintained by addBar: volume ids are
pairwise distinct, every bar is nonempty, every member carries the volume id
of its bar, and the HasVol flag of a bar is the flag its first member had
when the bar was created. -/
def BarsWF (bars : List Bar) : Prop :=
  bars.Pairwise (fun a b => a.volumeId ≠ b.volumeId)
  ∧ ∀ bar ∈ bars,
      bar.nuggets ≠ []
      ∧ (∀ nug ∈ bar.nuggets, nug.snap.volumeId = bar.volumeId)
      ∧ bar.nuggets.head?.map Nugget.hasVol = some bar.hasVol

/-- Concrete snapshot for the worked scenarios: 20 GB, taken before the
cutoff, of a volume that no longer exists. -/
def exSnap1 : Snapshot :=
  { snapshotId := "snap-1", volumeId := "vol-1", volumeSize := 20, startTime := 0 }

/-- Concrete deletable nugget over exSnap1. -/
def exN1 : Nugget :=
  { snap := exSnap1, hasVol := false
    amiIds := [], amiSharedWith := [], lcs := [], lts := [], asgs := [] }

/-- Second concrete deletable nugget of the same volume vol-1, 30 GB. -/
def exN2 : Nugget :=
  { snap := { snapshotId := "snap-2", volumeId := "vol-1", volumeSize := 30, startTime := 0 }
    hasVol := false
    amiIds := [], amiSharedWith := [], lcs := [], lts := [], asgs := [] }

/-- Concrete nugget of volume vol-3 whose volume is gone. -/
def exN3 : Nugget :=
  { snap := { snapshotId := "snap-3", volumeId := "vol-3", volumeSize := 10, startTime := 0 }
    hasVol := false
    amiIds := [], amiSharedWith := [], lcs := [], lts := [], asgs := [] }

/-- Concrete nugget of volume vol-3 whose volume still exists. -/
def exN4 : Nugget :=
  { snap := { snapshotId := "snap-4", volumeId := "vol-3", volumeSize := 10, startTime := 0 }
    hasVol := true
    amiIds := [], amiSharedWith := [], lcs := [], lts := [], asgs := [] }

/-- The single bar addBars builds from exN3 and exN4 in that order. -/
def exBar34 : Bar :=
  { volumeId := "vol-3", nuggets := [exN3, exN4], hasVol := false }

/-- Concrete image ami-1 mapping snap-1. -/
def exImage1 : Image :=
  { imageId := "ami-1", blockDeviceMappings := [some (some "snap-1")] }

/-- Concrete launch configurations lc-1 and lc-2, both on ami-1. -/
def exLc1 : LaunchConfiguration :=
  { launchConfigurationName := "lc-1", imageId := "ami-1", blockDeviceMappings := [] }

/-- Second concrete launch configuration on ami-1. -/
def exLc2 : LaunchConfiguration :=
  { launchConfigurationName := "lc-2", imageId := "ami-1", blockDeviceMappings := [] }

/-- Concrete autoscaling group using lc-1. -/
def exAsg1 : AutoscalingGroup :=
  { autoScalingGroupName := "asg-1", launchConfigurationName := some "lc-1"
    launchTemplate := none }

/-- Concrete autoscaling group using lc-2. -/
def exAsg2 : AutoscalingGroup :=
  { autoScalingGroupName := "asg-2", launchConfigurationName := some "lc-2"
    launchTemplate := none }

/-- Provider for the correlation scenario: one page with snap-1, image ami-1
registered from snap-1, launch configs lc-1 and lc-2 on ami-1, autoscaling
groups asg-1 on lc-1 and asg-2 on lc-2; every volume describe fails with a
rate limit error and the image is shared with nobody. -/
def exProvider : Provider :=
  { getAccount := Except.ok "111111111111"
    snapshotPages := Except.ok [[exSnap1]]
    describeVolume := fun _ => Except.error "RequestLimitExceeded"
    launchConfigs := Except.ok [exLc1, exLc2]
    launchTemplates := Except.ok []
    images := Except.ok [exImage1]
    asgs := Except.ok [exAsg1, exAsg2]
    imageShared := fun _ => Except.ok [] }

/-- Same concrete account state as exProvider, but every volume describe
succeeds with no volume and every image share lookup fails. -/
def exProviderShareFail : Provider :=
  { getAccount := Except.ok "111111111111"
    snapshotPages := Except.ok [[exSnap1]]
    describeVolume := fun _ => Except.ok []
    launchConfigs := Except.ok [exLc1, exLc2]
    launchTemplates := Except.ok []
    images := Except.ok [exImage1]
    asgs := Except.ok [exAsg1, exAsg2]
    imageShared := fun _ => Except.error "ShareDenied" }

/-
Theorems. Helper lemmas come first; the claim theorems and their witnesses
are marked with the claim id in their doc comment.
-/

theorem containsString_append (l : List String) (x s : String) :
    containsString (l ++ [x]) s = (containsString l s || (x == s)) := by
  induction l with
  | nil =>
    simp only [List.nil_append, containsString, Bool.false_or]
    by_cases h : (x == s) <;> simp [h]
  | cons v rest ih =>
    simp only [List.cons_append, containsString]
    by_cases h : (v == s) <;> simp [h, ih]

theorem containsString_iff (l : List String) (s : String) :
    containsString l s = true ↔ s ∈ l := by
  induction l with
  | nil => simp [containsString]
  | cons v rest ih =>
    simp only [containsString]
    by_cases h : (v == s)
    · rw [beq_iff_eq] at h
      subst h
      simp
    · have hne : v ≠ s := by
        intro hvs
        exact h (by simp [hvs])
      simp [h, ih, List.mem_cons]
      intro hsv
      exact absurd hsv.symm hne

theorem mem_firstOccurrenceDedupe (l : List String) (s : String) :
    s ∈ firstOccurrenceDedupe l ↔ s ∈ l := by
  induction l using firstOccurrenceDedupe.induct with
  | case1 => simp [firstOccurrenceDedupe]
  | case2 x xs ih =>
    rw [firstOccurrenceDedupe]
    simp only [List.mem_cons, ih, List.mem_filter]
    constructor
    · rintro (rfl | ⟨h, _⟩)
      · exact Or.inl rfl
      · exact Or.inr h
    · rintro (rfl | h)
      · exact Or.inl rfl
      · by_cases hx : s = x
        · exact Or.inl hx
        · refine Or.inr ⟨h, ?_⟩
          simp [beq_iff_eq]
          exact fun hh => hx hh.symm

theorem nodup_firstOccurrenceDedupe (l : List String) :
    (firstOccurrenceDedupe l).Nodup := by
  induction l using firstOccurrenceDedupe.induct with
  | case1 => simp [firstOccurrenceDedupe]
  | case2 x xs ih =>
    rw [firstOccurrenceDedupe]
    refine List.nodup_cons.mpr ⟨?_, ih⟩
    intro hmem
    rw [mem_firstOccurrenceDedupe] at hmem
    rcases List.mem_filter.mp hmem with ⟨_, hpred⟩
    simp at hpred

theorem firstOccurrenceDedupe_sublist (l : List String) :
    (firstOccurrenceDedupe l).Sublist l := by
  induction l using firstOccurrenceDedupe.induct with
  | case1 => simp [firstOccurrenceDedupe]
  | case2 x xs ih =>
    rw [firstOccurrenceDedupe]
    exact List.Sublist.cons₂ x (ih.trans (List.filter_sublist xs))

theorem firstOccurrenceDedupe_of_nodup (l : List String) (h : l.Nodup) :
    firstOccurrenceDedupe l = l := by
  induction l with
  | nil => simp [firstOccurrenceDedupe]
  | cons x xs ih =>
    rcases List.nodup_cons.mp h with ⟨hx, hxs⟩
    rw [firstOccurrenceDedupe]
    have hfilter : xs.filter (fun y => !(x == y)) = xs := by
      refine List.filter_eq_self.mpr ?_
      intro y hy
      simp only [Bool.not_eq_eq_eq_not, Bool.not_true, beq_eq_false_iff_ne]
      intro hxy
      exact hx (hxy ▸ hy)
    rw [hfilter, ih hxs]

theorem dedupeString_foldl_eq (l acc : List String) :
    l.foldl
      (fun returnSlice value =>
        if containsString returnSlice value then returnSlice else returnSlice ++ [value])
      acc
    = acc ++ firstOccurrenceDedupe (l.filter (fun x => !containsString acc x)) := by
  induction l generalizing acc with
  | nil => simp [firstOccurrenceDedupe]
  | cons x xs ih =>
    simp only [List.foldl_cons, List.filter_cons]
    by_cases h : containsString acc x
    · simp only [h, if_pos rfl, Bool.not_true, if_true]
      simp [h, ih]
    · have hb : containsString acc x = false := by
        simpa using h
      simp only [hb, Bool.not_false, Bool.false_eq_true, if_false, if_true]
      rw [ih (acc ++ [x])]
      rw [firstOccurrenceDedupe]
      rw [List.filter_filter]
      have hpred :
          (fun y => !containsString (acc ++ [x]) y)
            = (fun a => (!(x == a)) && (!containsString acc a)) := by
        funext y
        rw [containsString_append]
        rw [Bool.not_or]
        exact Bool.and_comm _ _
      rw [hpred, List.append_assoc]
      simp

theorem dedupeString_eq_firstOccurrenceDedupe (l : List String) :
    dedupeString l = firstOccurrenceDedupe l := by
  rw [dedupeString, dedupeString_foldl_eq]
  simp [containsString]

theorem mem_dedupeString (l : List String) (s : String) :
    s ∈ dedupeString l ↔ s ∈ l := by
  rw [dedupeString_eq_firstOccurrenceDedupe]
  exact mem_firstOccurrenceDedupe l s

theorem nodup_dedupeString (l : List String) : (dedupeString l).Nodup := by
  rw [dedupeString_eq_firstOccurrenceDedupe]
  exact nodup_firstOccurrenceDedupe l

/-- Claim C9: dedupeString keeps the first occurrence of each element in
original order (it coincides with the first occurrence description
firstOccurrenceDedupe) and is idempotent. -/
theorem dedupeString_first_occurrence_and_idempotent (l : List String) :
    dedupeString l = firstOccurrenceDedupe l
    ∧ dedupeString (dedupeString l) = dedupeString l := by
  refine ⟨dedupeString_eq_firstOccurrenceDedupe l, ?_⟩
  rw [dedupeString_eq_firstOccurrenceDedupe l,
    dedupeString_eq_firstOccurrenceDedupe (firstOccurrenceDedupe l)]
  exact firstOccurrenceDedupe_of_nodup _ (nodup_firstOccurrenceDedupe l)

theorem flatten_full_batches (l : List String) (B : Nat) (k : Nat) :
    ((List.range k).map (fun i => (l.drop (i * B)).take B)).flatten = l.take (k * B) := by
  induction k with
  | zero => simp
  | succ k ih =>
    rw [List.range_succ, List.map_append, List.flatten_append]
    simp only [List.map_cons, List.map_nil, List.flatten_cons, List.flatten_nil,
      List.append_nil]
    rw [ih, Nat.succ_mul, List.take_add]

theorem full_batch_length (l : List String) (B : Nat) (i : Nat)
    (h : i * B + B ≤ l.length) : ((l.drop (i * B)).take B).length = B := by
  rw [List.length_take, List.length_drop]
  have hle : B ≤ l.length - i * B := by omega
  exact min_eq_left hle

/-- Claim C8: for batch size B >= 1, makeBatchesStringPointer yields
ceil(N/B) batches, every batch has at most B elements, every batch except
possibly the last has exactly B, and the concatenation in order is the
input list. -/
theorem makeBatches_partition (l : List String) (B : Nat) (hB : 1 ≤ B) :
    (makeBatchesStringPointer l B).length = (l.length + B - 1) / B
    ∧ (∀ b ∈ makeBatchesStringPointer l B, b.length ≤ B)
    ∧ (∀ b ∈ (makeBatchesStringPointer l B).dropLast, b.length = B)
    ∧ (makeBatchesStringPointer l B).flatten = l := by
  have hBpos : 0 < B := hB
  have hqr : B * (l.length / B) + l.length % B = l.length := Nat.div_add_mod l.length B
  have hrB : l.length % B < B := Nat.mod_lt _ hBpos
  have hqB : (l.length / B) * B ≤ l.length := Nat.div_mul_le_self l.length B
  have hfull : ∀ i, i < l.length / B → ((l.drop (i * B)).take B).length = B := by
    intro i hi
    apply full_batch_length
    have h2 : (i + 1) * B ≤ (l.length / B) * B := Nat.mul_le_mul_right B hi
    rw [Nat.succ_mul] at h2
    exact le_trans h2 hqB
  have hmemfull : ∀ b ∈ (List.range (l.length / B)).map
      (fun i => (l.drop (i * B)).take B), b.length = B := by
    intro b hb
    rcases List.mem_map.mp hb with ⟨i, hi, rfl⟩
    exact hfull i (List.mem_range.mp hi)
  have hcomm : B * (l.length / B) = (l.length / B) * B := Nat.mul_comm _ _
  rw [makeBatchesStringPointer]
  by_cases hr : l.length % B > 0
  · simp only [hr, if_pos rfl, if_true]
    have hcount : ((List.range (l.length / B)).map
        (fun i => (l.drop (i * B)).take B)).length + 1 = (l.length + B - 1) / B := by
      rw [List.length_map, List.length_range]
      have hmul : B * (l.length / B + 1) = B * (l.length / B) + B := by
        ring
      have h1 : l.length + B - 1
          = (l.length % B - 1) + B * (l.length / B + 1) := by
        omega
      rw [h1, Nat.add_mul_div_left _ _ hBpos,
        Nat.div_eq_of_lt (show l.length % B - 1 < B by omega)]
      omega
    refine ⟨by simpa using hcount, ?_, ?_, ?_⟩
    · intro b hb
      rcases List.mem_append.mp hb with hb | hb
      · exact le_of_eq (hmemfull b hb)
      · rcases List.mem_singleton.mp hb with rfl
        rw [List.length_drop]
        omega
    · intro b hb
      rw [List.dropLast_concat] at hb
      exact hmemfull b hb
    · rw [List.flatten_append]
      simp only [List.flatten_cons, List.flatten_nil, List.append_nil]
      rw [flatten_full_batches]
      have hdrop : l.length - l.length % B = (l.length / B) * B := by
        omega
      rw [hdrop, List.take_append_drop]
  · have hr0 : l.length % B = 0 := by omega
    rw [if_neg hr]
    have hNqB : (l.length / B) * B = l.length := by
      omega
    refine ⟨?_, ?_, ?_, ?_⟩
    · rw [List.length_map, List.length_range]
      have h1 : l.length + B - 1 = (B - 1) + B * (l.length / B) := by
        omega
      rw [h1, Nat.add_mul_div_left _ _ hBpos,
        Nat.div_eq_of_lt (show B - 1 < B by omega)]
      omega
    · intro b hb
      exact le_of_eq (hmemfull b hb)
    · intro b hb
      exact hmemfull b ((List.dropLast_sublist _).subset hb)
    · rw [flatten_full_batches, hNqB, List.take_length]

/-- Claim C8 witness: five identifiers in batches of two give three batches
of sizes 2, 2, 1 whose concatenation is the input. -/
theorem makeBatches_partition_witness :
    (1 ≤ 2
      ∧ (makeBatchesStringPointer ["a", "b", "c", "d", "e"] 2).length = (5 + 2 - 1) / 2
      ∧ (∀ b ∈ makeBatchesStringPointer ["a", "b", "c", "d", "e"] 2, b.length ≤ 2)
      ∧ (∀ b ∈ (makeBatchesStringPointer ["a", "b", "c", "d", "e"] 2).dropLast,
          b.length = 2)
      ∧ (makeBatchesStringPointer ["a", "b", "c", "d", "e"] 2).flatten
          = ["a", "b", "c", "d", "e"]) := by
  refine ⟨by omega, ?_⟩
  have h := makeBatches_partition ["a", "b", "c", "d", "e"] 2 (by omega)
  simpa using h

/-- Claim C10: the batch splitter divides by the batch size, so batch size 0
is a runtime panic (modelled as none), while New applies the default of 30
only to a nil VolumeBatchSize and accepts an explicit 0 unvalidated. -/
theorem volumeBatchSize_zero_panics (l : List String) (h : l ≠ []) :
    newVolBatchSize (some 0) = 0
    ∧ makeBatchesStringPointerChecked l (newVolBatchSize (some 0)) = none
    ∧ newVolBatchSize none = 30
    ∧ ∀ B, 1 ≤ B → (makeBatchesStringPointerChecked l B).isSome = true := by
  refine ⟨rfl, rfl, rfl, ?_⟩
  intro B hb
  rw [makeBatchesStringPointerChecked, if_neg (by omega)]
  rfl

/-- Claim C10 witness: the non empty singleton identifier list. -/
theorem volumeBatchSize_zero_panics_witness :
    (["vol-1"] : List String) ≠ []
    ∧ (newVolBatchSize (some 0) = 0
        ∧ makeBatchesStringPointerChecked ["vol-1"] (newVolBatchSize (some 0)) = none
        ∧ newVolBatchSize none = 30
        ∧ ∀ B, 1 ≤ B → (makeBatchesStringPointerChecked ["vol-1"] B).isSome = true) :=
  ⟨by simp, volumeBatchSize_zero_panics ["vol-1"] (by simp)⟩

theorem processedPages_go_eq (maxPages : Nat) (pages : List (List Snapshot)) :
    ∀ k, k ≤ maxPages →
      processedPages.go maxPages k pages = pages.take (maxPages - k + 1) := by
  induction pages with
  | nil => intro k _; simp [processedPages.go]
  | cons page rest ih =>
    intro k hk
    rw [processedPages.go]
    by_cases h : k + 1 ≤ maxPages
    · rw [if_pos h, ih (k + 1) h]
      have harith : maxPages - k + 1 = (maxPages - (k + 1) + 1) + 1 := by
        omega
      rw [harith, List.take_succ_cons]
    · rw [if_neg h]
      have harith : maxPages - k + 1 = 1 := by omega
      rw [harith]
      simp

/-- Claim C5 (amended): the pagination of getSnapshots processes exactly the
first maxPages + 1 provider pages (the callback returns pageNum <= maxPages
after processing a page, so one page beyond the cap is still consumed); in
particular it stops at the cap + 1 or when the provider has no further
pages, whichever comes first. -/
theorem processedPages_take (pages : List (List Snapshot)) (maxPages : Nat) :
    processedPages pages maxPages = pages.take (maxPages + 1)
    ∧ (processedPages pages maxPages).length = min (maxPages + 1) pages.length := by
  have h := processedPages_go_eq maxPages pages 0 (Nat.zero_le _)
  rw [processedPages, h]
  have harith : maxPages - 0 + 1 = maxPages + 1 := by omega
  rw [harith]
  exact ⟨rfl, by rw [List.length_take]⟩

/-- Claim C5 counterexample: with maxPages = 1 and a provider holding two
pages, both pages are consumed, so the number of pages consumed exceeds
maxPages. -/
theorem processedPages_exceeds_maxPages :
    (processedPages [[], []] 1).length = 2 ∧ ¬(2 ≤ 1) := by
  constructor
  · rfl
  · omega

theorem addBar_not_found (bars : List Bar) (n : Nugget)
    (h : bars.any (fun bar => bar.volumeId == n.snap.volumeId) = false) :
    addBar bars n
      = bars ++ [{ volumeId := n.snap.volumeId, nuggets := [n], hasVol := n.hasVol }] := by
  rw [addBar, h]
  simp

theorem addBar_found (bars : List Bar) (n : Nugget)
    (h : bars.any (fun bar => bar.volumeId == n.snap.volumeId) = true) :
    addBar bars n
      = bars.map
          (fun bar =>
            if bar.volumeId == n.snap.volumeId then
              { bar with nuggets := bar.nuggets ++ [n] }
            else bar) := by
  rw [addBar, h]
  simp

theorem map_addBar_no_match (bars : List Bar) (key : String) (n : Nugget)
    (h : ∀ bar ∈ bars, (bar.volumeId == key) = false) :
    bars.map
        (fun bar =>
          if bar.volumeId == key then { bar with nuggets := bar.nuggets ++ [n] } else bar)
      = bars := by
  induction bars with
  | nil => rfl
  | cons b rest ih =>
    simp only [List.map_cons]
    rw [h b (List.mem_cons_self b rest)]
    simp only [Bool.false_eq_true, if_false]
    rw [ih (fun bar hbar => h bar (List.mem_cons_of_mem b hbar))]

theorem barsWF_nil : BarsWF [] := by
  constructor
  · exact List.Pairwise.nil
  · intro bar hbar
    simp at hbar

theorem addBar_WF (bars : List Bar) (n : Nugget) (h : BarsWF bars) :
    BarsWF (addBar bars n) := by
  obtain ⟨hkeys, hmem⟩ := h
  by_cases hany : bars.any (fun bar => bar.volumeId == n.snap.volumeId) = true
  · rw [addBar_found bars n hany]
    constructor
    · rw [List.pairwise_map]
      have hf : ∀ bar : Bar,
          (if bar.volumeId == n.snap.volumeId then
            { bar with nuggets := bar.nuggets ++ [n] } else bar).volumeId
          = bar.volumeId := by
        intro bar
        split <;> rfl
      refine List.Pairwise.imp ?_ hkeys
      intro a b hab
      rw [hf a, hf b]
      exact hab
    · intro bar' hbar'
      rcases List.mem_map.mp hbar' with ⟨bar, hbar, rfl⟩
      rcases hmem bar hbar with ⟨hne, hvols, hhead⟩
      by_cases hb : (bar.volumeId == n.snap.volumeId) = true
      · rw [if_pos hb]
        refine ⟨by simp, ?_, ?_⟩
        · intro nug hnug
          rcases List.mem_append.mp hnug with hnug | hnug
          · exact hvols nug hnug
          · rcases List.mem_singleton.mp hnug with rfl
            exact (beq_iff_eq.mp hb).symm
        · show ((bar.nuggets ++ [n]).head?.map Nugget.hasVol) = some bar.hasVol
          rw [List.head?_append_of_ne_nil _ hne]
          exact hhead
      · rw [if_neg hb]
        exact ⟨hne, hvols, hhead⟩
  · have hany' : bars.any (fun bar => bar.volumeId == n.snap.volumeId) = false := by
      simpa using hany
    rw [addBar_not_found bars n hany']
    constructor
    · rw [List.pairwise_append]
      refine ⟨hkeys, List.pairwise_singleton _ _, ?_⟩
      intro a ha b hb
      rcases List.mem_singleton.mp hb with rfl
      have hne := (List.any_eq_false.mp hany') a ha
      show a.volumeId ≠ n.snap.volumeId
      intro heq
      exact hne (by simp [heq])
    · intro bar hbar
      rcases List.mem_append.mp hbar with hbar | hbar
      · exact hmem bar hbar
      · rcases List.mem_singleton.mp hbar with rfl
        refine ⟨by simp, ?_, by simp⟩
        intro nug hnug
        rcases List.mem_singleton.mp hnug with rfl
        rfl

theorem addBars_WF_aux (ns : List Nugget) :
    ∀ bars, BarsWF bars → BarsWF (ns.foldl addBar bars) := by
  induction ns with
  | nil => intro bars h; exact h
  | cons n rest ih =>
    intro bars h
    rw [List.foldl_cons]
    exact ih (addBar bars n) (addBar_WF bars n h)

theorem addBars_WF (ns : List Nugget) : BarsWF (addBars ns) :=
  addBars_WF_aux ns [] barsWF_nil

theorem addBar_perm (bars : List Bar) (n : Nugget)
    (hkeys : bars.Pairwise (fun a b => a.volumeId ≠ b.volumeId)) :
    List.Perm ((addBar bars n).flatMap Bar.nuggets)
      (n :: bars.flatMap Bar.nuggets) := by
  by_cases hany : bars.any (fun bar => bar.volumeId == n.snap.volumeId) = true
  · rw [addBar_found bars n hany]
    induction bars with
    | nil => simp at hany
    | cons b rest ih =>
      have hkb : ∀ c ∈ rest, b.volumeId ≠ c.volumeId := (List.pairwise_cons.mp hkeys).1
      have hkrest := (List.pairwise_cons.mp hkeys).2
      simp only [List.map_cons, List.flatMap_cons]
      by_cases hb : (b.volumeId == n.snap.volumeId) = true
      · rw [if_pos hb]
        have hrest : ∀ c ∈ rest, (c.volumeId == n.snap.volumeId) = false := by
          intro c hc
          rw [beq_eq_false_iff_ne]
          intro hceq
          exact hkb c hc (by rw [beq_iff_eq.mp hb, hceq])
        rw [map_addBar_no_match rest _ n hrest]
        show List.Perm ((b.nuggets ++ [n]) ++ rest.flatMap Bar.nuggets)
          (n :: (b.nuggets ++ rest.flatMap Bar.nuggets))
        rw [List.append_assoc, List.singleton_append]
        exact List.perm_middle
      · rw [if_neg hb]
        have hany' : rest.any (fun bar => bar.volumeId == n.snap.volumeId) = true := by
          have hbf : (b.volumeId == n.snap.volumeId) = false := by simpa using hb
          rw [List.any_cons, hbf] at hany
          simpa using hany
        have hih := ih hkrest hany'
        refine (List.Perm.append_left b.nuggets hih).trans ?_
        exact List.perm_middle
  · have hany' : bars.any (fun bar => bar.volumeId == n.snap.volumeId) = false := by
      simpa using hany
    rw [addBar_not_found bars n hany', List.flatMap_append]
    simp only [List.flatMap_cons, List.flatMap_nil, List.append_nil]
    exact List.perm_append_comm

theorem addBars_perm_aux (ns : List Nugget) :
    ∀ bars, BarsWF bars →
      List.Perm ((ns.foldl addBar bars).flatMap Bar.nuggets)
        (bars.flatMap Bar.nuggets ++ ns) := by
  induction ns with
  | nil => intro bars _; simp
  | cons n rest ih =>
    intro bars hwf
    rw [List.foldl_cons]
    refine (ih (addBar bars n) (addBar_WF bars n hwf)).trans ?_
    refine (List.Perm.append_right rest (addBar_perm bars n hwf.1)).trans ?_
    exact List.perm_middle.symm

/-- Claim C6: after aggregation every snapshot record lies in exactly one
VolumeGroup: the multiset union of all bar member lists is the input
collection (a permutation, nothing dropped or duplicated), bars carry
pairwise distinct volume ids, and every member carries the volume id of its
bar. -/
theorem addBars_partition (ns : List Nugget) :
    List.Perm ((addBars ns).flatMap Bar.nuggets) ns
    ∧ (addBars ns).Pairwise (fun a b => a.volumeId ≠ b.volumeId)
    ∧ ∀ bar ∈ addBars ns, ∀ nug ∈ bar.nuggets, nug.snap.volumeId = bar.volumeId := by
  have hwf := addBars_WF ns
  refine ⟨?_, hwf.1, fun bar hbar => ((addBars_WF ns).2 bar hbar).2.1⟩
  have h := addBars_perm_aux ns [] barsWF_nil
  simpa using h

/-- Claim C6 witness: two records of distinct volumes land in two bars whose
members together are exactly the input. -/
theorem addBars_partition_witness :
    List.Perm ((addBars [exN1, exN3]).flatMap Bar.nuggets) [exN1, exN3] :=
  (addBars_partition [exN1, exN3]).1

/-- Claim C3 (amended): a VolumeGroup HasVol flag equals the flag of its
first member at creation time, not the OR of its members: addBar copies
HasVol only when it creates the bar and never updates it when later members
join. -/
theorem addBars_hasVol_first_member (ns : List Nugget) :
    ∀ bar ∈ addBars ns, bar.nuggets.head?.map Nugget.hasVol = some bar.hasVol :=
  fun bar hbar => ((addBars_WF ns).2 bar hbar).2.2

/-- Claim C3 (amended) witness: the bar built from exN3 then exN4 reports the
flag of its first member exN3. -/
theorem addBars_hasVol_first_member_witness :
    exBar34.nuggets.head?.map Nugget.hasVol = some exBar34.hasVol :=
  addBars_hasVol_first_member [exN3, exN4] exBar34 (by decide)

/-- Claim C3 counterexample: two snapshots share vol-3, the first member
lacks its volume and the second still has it; the group resolves
hasVolume = false even though the OR of its members is true, so the group
flag is not the OR of the member flags and does not resolve true regardless
of member order. -/
theorem addBars_hasVol_not_member_or :
    (addBars [exN3, exN4]).map Bar.hasVol = [false]
    ∧ (addBars [exN3, exN4]).map (fun bar => bar.nuggets.any Nugget.hasVol) = [true] := by
  constructor
  · rfl
  · rfl

theorem nugfold_snap (bar : Bar) (ns : List Nugget) :
    ∀ a, (ns.foldl (nugStep bar) a).snapToDelete
      = a.snapToDelete
        ++ ns.flatMap (fun nug => if deletableNugget nug then [nug.snap.snapshotId] else []) := by
  induction ns with
  | nil => intro a; simp
  | cons nug rest ih =>
    intro a
    rw [List.foldl_cons, ih]
    by_cases h : deletableNugget nug = true <;> simp [nugStep, h, List.append_assoc]

theorem nugfold_lts (bar : Bar) (ns : List Nugget) :
    ∀ a, (ns.foldl (nugStep bar) a).ltsToDelete
      = a.ltsToDelete
        ++ ns.flatMap (fun nug => if deletableNugget nug then nug.lts else []) := by
  induction ns with
  | nil => intro a; simp
  | cons nug rest ih =>
    intro a
    rw [List.foldl_cons, ih]
    by_cases h : deletableNugget nug = true <;> simp [nugStep, h, List.append_assoc]

theorem nugfold_lcs (bar : Bar) (ns : List Nugget) :
    ∀ a, (ns.foldl (nugStep bar) a).lcsToDelete
      = a.lcsToDelete
        ++ ns.flatMap (fun nug => if deletableNugget nug then nug.lcs else []) := by
  induction ns with
  | nil => intro a; simp
  | cons nug rest ih =>
    intro a
    rw [List.foldl_cons, ih]
    by_cases h : deletableNugget nug = true <;> simp [nugStep, h, List.append_assoc]

theorem nugfold_ami (bar : Bar) (ns : List Nugget) :
    ∀ a, (ns.foldl (nugStep bar) a).amiToDelete
      = a.amiToDelete
        ++ ns.flatMap (fun nug => if deletableNugget nug then nug.amiIds else []) := by
  induction ns with
  | nil => intro a; simp
  | cons nug rest ih =>
    intro a
    rw [List.foldl_cons, ih]
    by_cases h : deletableNugget nug = true <;> simp [nugStep, h, List.append_assoc]

theorem nugfold_bars (bar : Bar) (ns : List Nugget) :
    ∀ a, (ns.foldl (nugStep bar) a).barsToDelete
      = a.barsToDelete
        ++ ns.flatMap (fun nug => if deletableNugget nug then [bar] else []) := by
  induction ns with
  | nil => intro a; simp
  | cons nug rest ih =>
    intro a
    rw [List.foldl_cons, ih]
    by_cases h : deletableNugget nug = true <;> simp [nugStep, h, List.append_assoc]

theorem barfold_snap (bars : List Bar) :
    ∀ a, (bars.foldl recStep a).snapToDelete
      = a.snapToDelete
        ++ bars.flatMap
          (fun bar =>
            if bar.hasVol then []
            else bar.nuggets.flatMap
              (fun nug => if deletableNugget nug then [nug.snap.snapshotId] else [])) := by
  induction bars with
  | nil => intro a; simp
  | cons bar rest ih =>
    intro a
    rw [List.foldl_cons, ih]
    by_cases h : bar.hasVol = true
    · simp [recStep, h]
    · have hf : bar.hasVol = false := by simpa using h
      simp [recStep, hf, nugfold_snap, List.append_assoc]

theorem barfold_lts (bars : List Bar) :
    ∀ a, (bars.foldl recStep a).ltsToDelete
      = a.ltsToDelete
        ++ bars.flatMap
          (fun bar =>
            if bar.hasVol then []
            else bar.nuggets.flatMap
              (fun nug => if deletableNugget nug then nug.lts else [])) := by
  induction bars with
  | nil => intro a; simp
  | cons bar rest ih =>
    intro a
    rw [List.foldl_cons, ih]
    by_cases h : bar.hasVol = true
    · simp [recStep, h]
    · have hf : bar.hasVol = false := by simpa using h
      simp [recStep, hf, nugfold_lts, List.append_assoc]

theorem barfold_lcs (bars : List Bar) :
    ∀ a, (bars.foldl recStep a).lcsToDelete
      = a.lcsToDelete
        ++ bars.flatMap
          (fun bar =>
            if bar.hasVol then []
            else bar.nuggets.flatMap
              (fun nug => if deletableNugget nug then nug.lcs else [])) := by
  induction bars with
  | nil => intro a; simp
  | cons bar rest ih =>
    intro a
    rw [List.foldl_cons, ih]
    by_cases h : bar.hasVol = true
    · simp [recStep, h]
    · have hf : bar.hasVol = false := by simpa using h
      simp [recStep, hf, nugfold_lcs, List.append_assoc]

theorem barfold_ami (bars : List Bar) :
    ∀ a, (bars.foldl recStep a).amiToDelete
      = a.amiToDelete
        ++ bars.flatMap
          (fun bar =>
            if bar.hasVol then []
            else bar.nuggets.flatMap
              (fun nug => if deletableNugget nug then nug.amiIds else [])) := by
  induction bars with
  | nil => intro a; simp
  | cons bar rest ih =>
    intro a
    rw [List.foldl_cons, ih]
    by_cases h : bar.hasVol = true
    · simp [recStep, h]
    · have hf : bar.hasVol = false := by simpa using h
      simp [recStep, hf, nugfold_ami, List.append_assoc]

theorem barfold_bars (bars : List Bar) :
    ∀ a, (bars.foldl recStep a).barsToDelete
      = a.barsToDelete
        ++ bars.flatMap
          (fun bar =>
            if bar.hasVol then []
            else bar.nuggets.flatMap
              (fun nug => if deletableNugget nug then [bar] else [])) := by
  induction bars with
  | nil => intro a; simp
  | cons bar rest ih =>
    intro a
    rw [List.foldl_cons, ih]
    by_cases h : bar.hasVol = true
    · simp [recStep, h]
    · have hf : bar.hasVol = false := by simpa using h
      simp [recStep, hf, nugfold_bars, List.append_assoc]

theorem setRec_snapToDelete (bars : List Bar) (rate : Rat) :
    (setRecommendationsCore bars rate).snapToDelete
      = dedupeString
          (bars.flatMap
            (fun bar =>
              if bar.hasVol then []
              else bar.nuggets.flatMap
                (fun nug => if deletableNugget nug then [nug.snap.snapshotId] else []))) := by
  simp [setRecommendationsCore, barfold_snap]

theorem setRec_ltsToDelete (bars : List Bar) (rate : Rat) :
    (setRecommendationsCore bars rate).ltsToDelete
      = dedupeString
          (bars.flatMap
            (fun bar =>
              if bar.hasVol then []
              else bar.nuggets.flatMap
                (fun nug => if deletableNugget nug then nug.lts else []))) := by
  simp [setRecommendationsCore, barfold_lts]

theorem setRec_lcsToDelete (bars : List Bar) (rate : Rat) :
    (setRecommendationsCore bars rate).lcsToDelete
      = dedupeString
          (bars.flatMap
            (fun bar =>
              if bar.hasVol then []
              else bar.nuggets.flatMap
                (fun nug => if deletableNugget nug then nug.lcs else []))) := by
  simp [setRecommendationsCore, barfold_lcs]

theorem setRec_amiToDelete (bars : List Bar) (rate : Rat) :
    (setRecommendationsCore bars rate).amiToDelete
      = dedupeString
          (bars.flatMap
            (fun bar =>
              if bar.hasVol then []
              else bar.nuggets.flatMap
                (fun nug => if deletableNugget nug then nug.amiIds else []))) := by
  simp [setRecommendationsCore, barfold_ami]

theorem setRec_totalGbs (bars : List Bar) (rate : Rat) :
    (setRecommendationsCore bars rate).totalGbs
      = (bars.flatMap
          (fun bar =>
            if bar.hasVol then []
            else bar.nuggets.flatMap
              (fun nug => if deletableNugget nug then [bar] else []))).foldl
          (fun t b => if !b.hasVol then t + barFirstVolumeSize b else t) 0 := by
  simp [setRecommendationsCore, barfold_bars]

theorem setRec_totalSavings (bars : List Bar) (rate : Rat) :
    (setRecommendationsCore bars rate).totalSavings
      = ((setRecommendationsCore bars rate).totalGbs : Rat) * rate := by
  simp [setRecommendationsCore]

theorem deletableNugget_iff (nug : Nugget) :
    deletableNugget nug = true ↔ nug.asgs = [] ∧ nug.amiSharedWith = [] := by
  simp [deletableNugget, List.length_eq_zero]

theorem mem_planSeq_iff (bars : List Bar) (f : Nugget → List String) (s : String) :
    s ∈ bars.flatMap
        (fun bar =>
          if bar.hasVol then []
          else bar.nuggets.flatMap (fun nug => if deletableNugget nug then f nug else []))
    ↔ ∃ bar ∈ bars, bar.hasVol = false
        ∧ ∃ nug ∈ bar.nuggets, deletableNugget nug = true ∧ s ∈ f nug := by
  rw [List.mem_flatMap]
  constructor
  · rintro ⟨bar, hbar, hs⟩
    by_cases h : bar.hasVol = true
    · rw [if_pos h] at hs
      simp at hs
    · have hf : bar.hasVol = false := by simpa using h
      rw [if_neg h] at hs
      rcases List.mem_flatMap.mp hs with ⟨nug, hnug, hs2⟩
      by_cases hd : deletableNugget nug = true
      · rw [if_pos hd] at hs2
        exact ⟨bar, hbar, hf, nug, hnug, hd, hs2⟩
      · rw [if_neg hd] at hs2
        simp at hs2
  · rintro ⟨bar, hbar, hf, nug, hnug, hd, hs⟩
    refine ⟨bar, hbar, ?_⟩
    rw [if_neg (by simp [hf])]
    exact List.mem_flatMap.mpr ⟨nug, hnug, by rw [if_pos hd]; exact hs⟩

/-- Claim C1: a snapshot id is in the snapshot sequence of the deletion plan
exactly when some record of a VolumeGroup with hasVolume = false carries it
with empty autoscalingGroupNames and empty sharedWithAccounts; groups with
hasVolume = true contribute to none of the four plan sequences, and each
listed snapshot id occurs exactly once after dedupe. -/
theorem plan_snapshot_membership (bars : List Bar) (rate : Rat) :
    (∀ s, s ∈ (setRecommendationsCore bars rate).snapToDelete
      ↔ ∃ bar ∈ bars, bar.hasVol = false
          ∧ ∃ nug ∈ bar.nuggets,
              nug.snap.snapshotId = s ∧ nug.asgs = [] ∧ nug.amiSharedWith = [])
    ∧ (setRecommendationsCore bars rate).snapToDelete.Nodup
    ∧ (∀ s ∈ (setRecommendationsCore bars rate).snapToDelete,
        (setRecommendationsCore bars rate).snapToDelete.count s = 1)
    ∧ (∀ s, s ∈ (setRecommendationsCore bars rate).ltsToDelete
      ↔ ∃ bar ∈ bars, bar.hasVol = false
          ∧ ∃ nug ∈ bar.nuggets, s ∈ nug.lts ∧ nug.asgs = [] ∧ nug.amiSharedWith = [])
    ∧ (∀ s, s ∈ (setRecommendationsCore bars rate).lcsToDelete
      ↔ ∃ bar ∈ bars, bar.hasVol = false
          ∧ ∃ nug ∈ bar.nuggets, s ∈ nug.lcs ∧ nug.asgs = [] ∧ nug.amiSharedWith = [])
    ∧ (∀ s, s ∈ (setRecommendationsCore bars rate).amiToDelete
      ↔ ∃ bar ∈ bars, bar.hasVol = false
          ∧ ∃ nug ∈ bar.nuggets, s ∈ nug.amiIds ∧ nug.asgs = [] ∧ nug.amiSharedWith = []) := by
  have hnodup : (setRecommendationsCore bars rate).snapToDelete.Nodup := by
    rw [setRec_snapToDelete]
    exact nodup_dedupeString _
  refine ⟨?_, hnodup, ?_, ?_, ?_, ?_⟩
  · intro s
    rw [setRec_snapToDelete, mem_dedupeString, mem_planSeq_iff]
    constructor
    · rintro ⟨bar, hbar, hf, nug, hnug, hd, hs⟩
      rcases List.mem_singleton.mp hs with rfl
      rcases (deletableNugget_iff nug).mp hd with ⟨h1, h2⟩
      exact ⟨bar, hbar, hf, nug, hnug, rfl, h1, h2⟩
    · rintro ⟨bar, hbar, hf, nug, hnug, hid, h1, h2⟩
      exact ⟨bar, hbar, hf, nug, hnug, (deletableNugget_iff nug).mpr ⟨h1, h2⟩,
        by rw [hid]; exact List.mem_singleton.mpr rfl⟩
  · intro s hs
    exact List.count_eq_one_of_mem hnodup hs
  · intro s
    rw [setRec_ltsToDelete, mem_dedupeString, mem_planSeq_iff]
    constructor
    · rintro ⟨bar, hbar, hf, nug, hnug, hd, hs⟩
      rcases (deletableNugget_iff nug).mp hd with ⟨h1, h2⟩
      exact ⟨bar, hbar, hf, nug, hnug, hs, h1, h2⟩
    · rintro ⟨bar, hbar, hf, nug, hnug, hs, h1, h2⟩
      exact ⟨bar, hbar, hf, nug, hnug, (deletableNugget_iff nug).mpr ⟨h1, h2⟩, hs⟩
  · intro s
    rw [setRec_lcsToDelete, mem_dedupeString, mem_planSeq_iff]
    constructor
    · rintro ⟨bar, hbar, hf, nug, hnug, hd, hs⟩
      rcases (deletableNugget_iff nug).mp hd with ⟨h1, h2⟩
      exact ⟨bar, hbar, hf, nug, hnug, hs, h1, h2⟩
    · rintro ⟨bar, hbar, hf, nug, hnug, hs, h1, h2⟩
      exact ⟨bar, hbar, hf, nug, hnug, (deletableNugget_iff nug).mpr ⟨h1, h2⟩, hs⟩
  · intro s
    rw [setRec_amiToDelete, mem_dedupeString, mem_planSeq_iff]
    constructor
    · rintro ⟨bar, hbar, hf, nug, hnug, hd, hs⟩
      rcases (deletableNugget_iff nug).mp hd with ⟨h1, h2⟩
      exact ⟨bar, hbar, hf, nug, hnug, hs, h1, h2⟩
    · rintro ⟨bar, hbar, hf, nug, hnug, hs, h1, h2⟩
      exact ⟨bar, hbar, hf, nug, hnug, (deletableNugget_iff nug).mpr ⟨h1, h2⟩, hs⟩

theorem cost_foldl_sum (l : List Bar) :
    ∀ t0 : Int,
      l.foldl (fun t b => if !b.hasVol then t + barFirstVolumeSize b else t) t0
        = t0 + (l.map (fun b => if !b.hasVol then barFirstVolumeSize b else 0)).sum := by
  induction l with
  | nil => intro t0; simp
  | cons b rest ih =>
    intro t0
    rw [List.foldl_cons, ih]
    by_cases h : b.hasVol = true
    · simp [h]
    · have hf : b.hasVol = false := by simpa using h
      simp only [hf, Bool.not_false, if_pos rfl, if_true, List.map_cons, List.sum_cons]
      omega

theorem sum_flatMap_eq (l : List Bar) (f : Bar → List Int) :
    (l.flatMap f).sum = (l.map (fun a => (f a).sum)).sum := by
  induction l with
  | nil => simp
  | cons a rest ih =>
    rw [List.flatMap_cons, List.sum_append, ih, List.map_cons, List.sum_cons]

theorem sum_if_const (ns : List Nugget) (p : Nugget → Bool) (bar : Bar) (g : Bar → Int) :
    ((ns.flatMap (fun nug => if p nug then [bar] else [])).map g).sum
      = ((ns.filter p).length : Int) * g bar := by
  induction ns with
  | nil => simp
  | cons nug rest ih =>
    rw [List.flatMap_cons, List.map_append, List.sum_append, ih, List.filter_cons]
    by_cases h : p nug = true
    · rw [if_pos h, if_pos h]
      simp only [List.map_cons, List.map_nil, List.sum_cons, List.sum_nil, List.length_cons]
      push_cast
      ring
    · rw [if_neg h, if_neg h]
      simp

/-- Claim C2 (amended): the cost estimate multiplies the rate by the sum,
over each deletable record, of the first member volumeSize of the VolumeGroup
of that record; a group with several deletable members has its first member
size counted once per deletable member, not once per group. -/
theorem cost_per_deletable_record (bars : List Bar) (rate : Rat) :
    (setRecommendationsCore bars rate).totalGbs
      = (bars.map
          (fun bar =>
            if bar.hasVol then 0
            else ((bar.nuggets.filter deletableNugget).length : Int)
              * barFirstVolumeSize bar)).sum
    ∧ (setRecommendationsCore bars rate).totalSavings
      = ((setRecommendationsCore bars rate).totalGbs : Rat) * rate := by
  refine ⟨?_, setRec_totalSavings bars rate⟩
  rw [setRec_totalGbs, cost_foldl_sum, zero_add, List.map_flatMap, sum_flatMap_eq]
  congr 1
  apply List.map_congr_left
  intro bar _
  by_cases h : bar.hasVol = true
  · rw [if_pos h, if_pos h]
    simp
  · have hf : bar.hasVol = false := by simpa using h
    rw [if_neg h, if_neg h, sum_if_const]
    rw [hf]
    simp

/-- Claim C2 counterexample: two deletable snapshots of the same deleted
volume (sizes 20 and 30, first member size 20) are both counted, so the
code computes 40 GB while a once per group first member sum gives 20 GB;
with a lone deletable 20 GB snapshot the code does give 20 GB. -/
theorem cost_not_once_per_group :
    (setRecommendationsCore (addBars [exN1, exN2]) 1).totalGbs = 40
    ∧ specCostOncePerGroup (addBars [exN1, exN2]) = 20
    ∧ (setRecommendationsCore (addBars [exN1]) 1).totalGbs = 20
    ∧ (40 : Int) ≠ 20 := by
  refine ⟨by decide, by decide, by decide, by decide⟩

theorem foldlM_ok {σ α : Type} (f : σ → α → Except String σ)
    (h : ∀ s a, ∃ s2, f s a = Except.ok s2) :
    ∀ (l : List α) (s : σ), ∃ s2, List.foldlM f s l = Except.ok s2 := by
  intro l
  induction l with
  | nil => intro s; exact ⟨s, rfl⟩
  | cons a rest ih =>
    intro s
    rcases h s a with ⟨s1, hs1⟩
    rcases ih s1 with ⟨s2, hs2⟩
    refine ⟨s2, ?_⟩
    rw [List.foldlM_cons, hs1]
    exact hs2

theorem mapM_ok {α β : Type} (g : α → Except String β)
    (h : ∀ a, ∃ b, g a = Except.ok b) :
    ∀ l : List α, ∃ bs, l.mapM g = Except.ok bs := by
  intro l
  induction l with
  | nil => exact ⟨[], rfl⟩
  | cons a rest ih =>
    rcases h a with ⟨b, hb⟩
    rcases ih with ⟨bs, hbs⟩
    refine ⟨b :: bs, ?_⟩
    rw [List.mapM_cons, hb]
    show (List.mapM g rest) >>= _ = _
    rw [hbs]
    rfl

theorem applyBdm_ok (p : Provider) (lcs : List LaunchConfiguration)
    (lts : List LaunchTemplateVersion) (asgs : List AutoscalingGroup)
    (imageId : String) (snap : Nugget) (bdm : Option (Option String))
    (hshare : ∀ ami, ∃ accts, p.imageShared ami = Except.ok accts) :
    ∃ snap2, applyBdm p lcs lts asgs imageId snap bdm = Except.ok snap2 := by
  rcases bdm with _ | bdm
  · exact ⟨snap, rfl⟩
  rcases bdm with _ | bdmSnapId
  · exact ⟨snap, rfl⟩
  rw [applyBdm]
  by_cases h : (snap.snap.snapshotId == bdmSnapId) = true
  · rw [if_pos h]
    rcases hshare imageId with ⟨accts, haccts⟩
    rw [haccts]
    exact ⟨_, rfl⟩
  · rw [if_neg h]
    exact ⟨snap, rfl⟩

theorem populateNuggets_ok (p : Provider) (nuggets : List Nugget)
    (lcs : List LaunchConfiguration) (lts : List LaunchTemplateVersion)
    (images : List Image) (asgs : List AutoscalingGroup)
    (h1 : p.launchConfigs = Except.ok lcs)
    (h2 : p.launchTemplates = Except.ok lts)
    (h3 : p.images = Except.ok images)
    (h4 : p.asgs = Except.ok asgs)
    (hshare : ∀ ami, ∃ accts, p.imageShared ami = Except.ok accts) :
    ∃ ns, populateNuggets p nuggets = Except.ok ns := by
  rw [populateNuggets]
  rcases foldlM_ok
      (fun ns image => ns.mapM (fun snap => image.blockDeviceMappings.foldlM
        (applyBdm p lcs lts asgs image.imageId) snap))
      (fun ns image =>
        mapM_ok _
          (fun snap => foldlM_ok _
            (fun s bdm => applyBdm_ok p lcs lts asgs image.imageId s bdm hshare)
            image.blockDeviceMappings snap)
          ns)
      images nuggets with ⟨ns, hns⟩
  rw [h1, h2, h3, h4]
  exact ⟨ns, hns⟩

theorem applyBdm_shareErr (p : Provider) (lcs : List LaunchConfiguration)
    (lts : List LaunchTemplateVersion) (asgs : List AutoscalingGroup)
    (imageId e : String)
    (hshareErr : ∀ ami, p.imageShared ami = Except.error e)
    (snap : Nugget) (bdm : Option (Option String)) :
    (bdmMatchesSnap snap bdm = true →
      applyBdm p lcs lts asgs imageId snap bdm = Except.error e)
    ∧ (bdmMatchesSnap snap bdm = false →
      applyBdm p lcs lts asgs imageId snap bdm = Except.ok snap) := by
  rcases bdm with _ | bdm
  · refine ⟨?_, fun _ => rfl⟩
    intro h
    simp [bdmMatchesSnap] at h
  rcases bdm with _ | sid
  · refine ⟨?_, fun _ => rfl⟩
    intro h
    simp [bdmMatchesSnap] at h
  constructor
  · intro hm
    have hm2 : (snap.snap.snapshotId == sid) = true := by
      simpa [bdmMatchesSnap] using hm
    rw [applyBdm, if_pos hm2, hshareErr imageId]
    rfl
  · intro hm
    have hm2 : (snap.snap.snapshotId == sid) = false := by
      simpa [bdmMatchesSnap] using hm
    rw [applyBdm, if_neg (by simp [hm2])]
    rfl

theorem bdmsFold_shareErr (p : Provider) (lcs : List LaunchConfiguration)
    (lts : List LaunchTemplateVersion) (asgs : List AutoscalingGroup)
    (imageId e : String)
    (hshareErr : ∀ ami, p.imageShared ami = Except.error e) :
    ∀ (bdms : List (Option (Option String))) (snap : Nugget),
      (bdms.any (bdmMatchesSnap snap) = true →
        bdms.foldlM (applyBdm p lcs lts asgs imageId) snap = Except.error e)
      ∧ (bdms.any (bdmMatchesSnap snap) = false →
        bdms.foldlM (applyBdm p lcs lts asgs imageId) snap = Except.ok snap) := by
  intro bdms
  induction bdms with
  | nil =>
    intro snap
    refine ⟨?_, fun _ => rfl⟩
    intro h
    simp at h
  | cons bdm rest ih =>
    intro snap
    rcases applyBdm_shareErr p lcs lts asgs imageId e hshareErr snap bdm with ⟨hT, hF⟩
    cases hm : bdmMatchesSnap snap bdm with
    | true =>
      constructor
      · intro _
        rw [List.foldlM_cons, hT hm]
        rfl
      · intro h
        rw [List.any_cons, hm] at h
        simp at h
    | false =>
      constructor
      · intro h
        rw [List.any_cons, hm, Bool.false_or] at h
        rw [List.foldlM_cons, hF hm]
        show List.foldlM _ snap rest = _
        exact (ih snap).1 h
      · intro h
        rw [List.any_cons, hm, Bool.false_or] at h
        rw [List.foldlM_cons, hF hm]
        show List.foldlM _ snap rest = _
        exact (ih snap).2 h

theorem mapM_shareErr (p : Provider) (lcs : List LaunchConfiguration)
    (lts : List LaunchTemplateVersion) (asgs : List AutoscalingGroup)
    (e : String) (hshareErr : ∀ ami, p.imageShared ami = Except.error e)
    (image : Image) :
    ∀ nuggets : List Nugget,
      (nuggets.any (imageMatchesNugget image) = true →
        nuggets.mapM (fun snap => image.blockDeviceMappings.foldlM
          (applyBdm p lcs lts asgs image.imageId) snap) = Except.error e)
      ∧ (nuggets.any (imageMatchesNugget image) = false →
        nuggets.mapM (fun snap => image.blockDeviceMappings.foldlM
          (applyBdm p lcs lts asgs image.imageId) snap) = Except.ok nuggets) := by
  intro nuggets
  induction nuggets with
  | nil =>
    refine ⟨?_, fun _ => rfl⟩
    intro h
    simp at h
  | cons nug rest ih =>
    rcases bdmsFold_shareErr p lcs lts asgs image.imageId e hshareErr
      image.blockDeviceMappings nug with ⟨hT, hF⟩
    cases hm : imageMatchesNugget image nug with
    | true =>
      have hmm : image.blockDeviceMappings.any (bdmMatchesSnap nug) = true := by
        rwa [imageMatchesNugget] at hm
      constructor
      · intro _
        rw [List.mapM_cons, hT hmm]
        rfl
      · intro h
        rw [List.any_cons, hm] at h
        simp at h
    | false =>
      have hmm : image.blockDeviceMappings.any (bdmMatchesSnap nug) = false := by
        rwa [imageMatchesNugget] at hm
      constructor
      · intro h
        rw [List.any_cons, hm, Bool.false_or] at h
        rw [List.mapM_cons, hF hmm, ih.1 h]
        rfl
      · intro h
        rw [List.any_cons, hm, Bool.false_or] at h
        rw [List.mapM_cons, hF hmm, ih.2 h]
        rfl

theorem imagesFold_shareErr (p : Provider) (lcs : List LaunchConfiguration)
    (lts : List LaunchTemplateVersion) (asgs : List AutoscalingGroup)
    (e : String) (hshareErr : ∀ ami, p.imageShared ami = Except.error e) :
    ∀ (images : List Image) (nuggets : List Nugget),
      (images.any (fun image => nuggets.any (imageMatchesNugget image)) = true →
        List.foldlM
          (fun ns image => ns.mapM (fun snap => image.blockDeviceMappings.foldlM
            (applyBdm p lcs lts asgs image.imageId) snap))
          nuggets images = Except.error e)
      ∧ (images.any (fun image => nuggets.any (imageMatchesNugget image)) = false →
        List.foldlM
          (fun ns image => ns.mapM (fun snap => image.blockDeviceMappings.foldlM
            (applyBdm p lcs lts asgs image.imageId) snap))
          nuggets images = Except.ok nuggets) := by
  intro images
  induction images with
  | nil =>
    intro nuggets
    refine ⟨?_, fun _ => rfl⟩
    intro h
    simp at h
  | cons image rest ih =>
    intro nuggets
    rcases mapM_shareErr p lcs lts asgs e hshareErr image nuggets with ⟨hT, hF⟩
    cases hm : nuggets.any (imageMatchesNugget image) with
    | true =>
      constructor
      · intro _
        simp only [List.foldlM_cons]
        rw [hT hm]
        rfl
      · intro h
        rw [List.any_cons, hm] at h
        simp at h
    | false =>
      constructor
      · intro h
        rw [List.any_cons, hm, Bool.false_or] at h
        simp only [List.foldlM_cons]
        rw [hF hm]
        show List.foldlM _ nuggets rest = _
        exact (ih nuggets).1 h
      · intro h
        rw [List.any_cons, hm, Bool.false_or] at h
        simp only [List.foldlM_cons]
        rw [hF hm]
        show List.foldlM _ nuggets rest = _
        exact (ih nuggets).2 h

theorem populateNuggets_shareErr (p : Provider) (nuggets : List Nugget)
    (lcs : List LaunchConfiguration) (lts : List LaunchTemplateVersion)
    (images : List Image) (asgs : List AutoscalingGroup) (e : String)
    (h1 : p.launchConfigs = Except.ok lcs)
    (h2 : p.launchTemplates = Except.ok lts)
    (h3 : p.images = Except.ok images)
    (h4 : p.asgs = Except.ok asgs)
    (hshareErr : ∀ ami, p.imageShared ami = Except.error e)
    (hmatch : images.any (fun image => nuggets.any (imageMatchesNugget image)) = true) :
    populateNuggets p nuggets = Except.error e := by
  rw [populateNuggets, h1, h2, h3, h4]
  show List.foldlM _ nuggets images = _
  exact (imagesFold_shareErr p lcs lts asgs e hshareErr images nuggets).1 hmatch

/-- Claim C4 (amended): with a batch size Go would not panic on, a
ProviderError during snapshot intake or during correlation aborts the run
with that error and no recommendations: an error from the snapshot paging,
the launch configuration, launch template, image or autoscaling group
describes, or from an image share lookup once the correlation loop reaches a
matched image and record (the only point where that lookup is made),
propagates out of Start unchanged. Errors of individual volume describe
calls during volume resolution are silently discarded (the volume is
treated as absent) and never abort the run, so a run whose account, intake
and correlation calls succeed produces recommendations no matter how many
volume describes fail. -/
theorem provider_error_abort_amended (p : Provider) (cutoffDate : Int)
    (maxPages volBatchSize : Nat) (rate : Rat) (acct e : String)
    (hacct : p.getAccount = Except.ok acct)
    (hB : 1 ≤ volBatchSize) :
    (p.snapshotPages = Except.error e →
      startRun p cutoffDate maxPages volBatchSize rate = Except.error e)
    ∧ (∀ pages, p.snapshotPages = Except.ok pages →
        p.launchConfigs = Except.error e →
        startRun p cutoffDate maxPages volBatchSize rate = Except.error e)
    ∧ (∀ pages lcs, p.snapshotPages = Except.ok pages →
        p.launchConfigs = Except.ok lcs →
        p.launchTemplates = Except.error e →
        startRun p cutoffDate maxPages volBatchSize rate = Except.error e)
    ∧ (∀ pages lcs lts, p.snapshotPages = Except.ok pages →
        p.launchConfigs = Except.ok lcs →
        p.launchTemplates = Except.ok lts →
        p.images = Except.error e →
        startRun p cutoffDate maxPages volBatchSize rate = Except.error e)
    ∧ (∀ pages lcs lts images, p.snapshotPages = Except.ok pages →
        p.launchConfigs = Except.ok lcs →
        p.launchTemplates = Except.ok lts →
        p.images = Except.ok images →
        p.asgs = Except.error e →
        startRun p cutoffDate maxPages volBatchSize rate = Except.error e)
    ∧ (∀ pages lcs lts images asgs, p.snapshotPages = Except.ok pages →
        p.launchConfigs = Except.ok lcs →
        p.launchTemplates = Except.ok lts →
        p.images = Except.ok images →
        p.asgs = Except.ok asgs →
        (∀ ami, p.imageShared ami = Except.error e) →
        images.any (fun image =>
          (buildAllNuggets p cutoffDate maxPages volBatchSize pages).any
            (imageMatchesNugget image)) = true →
        startRun p cutoffDate maxPages volBatchSize rate = Except.error e)
    ∧ ((∃ pages, p.snapshotPages = Except.ok pages)
        → (∃ x, p.launchConfigs = Except.ok x)
        → (∃ x, p.launchTemplates = Except.ok x)
        → (∃ x, p.images = Except.ok x)
        → (∃ x, p.asgs = Except.ok x)
        → (∀ ami, ∃ accts, p.imageShared ami = Except.ok accts)
        → ∃ r, startRun p cutoffDate maxPages volBatchSize rate = Except.ok r) := by
  refine ⟨?_, ?_, ?_, ?_, ?_, ?_, ?_⟩
  · intro hpages
    rw [startRun, hacct, getSnapshots, hpages]
    rfl
  · intro pages hpages hlcs
    rw [startRun, hacct, getSnapshots, hpages]
    show (populateNuggets p _ >>= _) = _
    rw [populateNuggets, hlcs]
    rfl
  · intro pages lcs hpages hlcs hlts
    rw [startRun, hacct, getSnapshots, hpages]
    show (populateNuggets p _ >>= _) = _
    rw [populateNuggets, hlcs, hlts]
    rfl
  · intro pages lcs lts hpages hlcs hlts himages
    rw [startRun, hacct, getSnapshots, hpages]
    show (populateNuggets p _ >>= _) = _
    rw [populateNuggets, hlcs, hlts, himages]
    rfl
  · intro pages lcs lts images hpages hlcs hlts himages hasgs
    rw [startRun, hacct, getSnapshots, hpages]
    show (populateNuggets p _ >>= _) = _
    rw [populateNuggets, hlcs, hlts, himages, hasgs]
    rfl
  · intro pages lcs lts images asgs hpages hlcs hlts himages hasgs hshareErr hmatch
    rw [startRun, hacct, getSnapshots, hpages]
    show (populateNuggets p (buildAllNuggets p cutoffDate maxPages volBatchSize pages)
      >>= _) = _
    rw [populateNuggets_shareErr p _ lcs lts images asgs e
      hlcs hlts himages hasgs hshareErr hmatch]
    rfl
  · rintro ⟨pages, hpages⟩ ⟨lcs, hlcs⟩ ⟨lts, hlts⟩ ⟨images, himages⟩ ⟨asgs, hasgs⟩ hshare
    have hkey : ∀ nuggets : List Nugget, ∃ r,
        (populateNuggets p nuggets
          >>= fun ns => pure (setRecommendationsCore (addBars ns) rate)
          : Except String Recs) = Except.ok r := by
      intro nuggets
      rcases populateNuggets_ok p nuggets lcs lts images asgs
        hlcs hlts himages hasgs hshare with ⟨ns, hns⟩
      refine ⟨setRecommendationsCore (addBars ns) rate, ?_⟩
      rw [hns]
      rfl
    rw [startRun, hacct, getSnapshots, hpages]
    exact hkey _

/-- Claim C4 amended witness: at batch size 30 the concrete provider whose
volume describes all fail but whose other calls succeed still completes its
run, while the provider whose image share lookups fail aborts with that
error once the correlation loop reaches the matched image ami-1 and record
snap-1. -/
theorem provider_error_abort_amended_witness :
    (∃ r, startRun exProvider 1 25 30 1 = Except.ok r)
    ∧ startRun exProviderShareFail 1 25 30 1 = Except.error "ShareDenied" :=
  ⟨(provider_error_abort_amended exProvider 1 25 30 1 "111111111111" "E" rfl
      (by omega)).2.2.2.2.2.2
    ⟨[[exSnap1]], rfl⟩ ⟨[exLc1, exLc2], rfl⟩ ⟨[], rfl⟩ ⟨[exImage1], rfl⟩
    ⟨[exAsg1, exAsg2], rfl⟩ (fun _ => ⟨[], rfl⟩),
  (provider_error_abort_amended exProviderShareFail 1 25 30 1 "111111111111"
      "ShareDenied" rfl (by omega)).2.2.2.2.2.1
    [[exSnap1]] [exLc1, exLc2] [] [exImage1] [exAsg1, exAsg2]
    rfl rfl rfl rfl rfl (fun _ => rfl) (by rfl)⟩

/-- Claim C4 counterexample: a run in which every provider volume describe
call fails with RequestLimitExceeded still succeeds, so a failing volume
describe during volume resolution does not make Start return the error: the
error is discarded by describeVolumes. -/
theorem volume_error_does_not_abort :
    (startRun exProvider 1 25 30 1).isOk = true
    ∧ exProvider.describeVolume "vol-1" = Except.error "RequestLimitExceeded" := by
  exact ⟨rfl, rfl⟩

/-- Claim C7: the autoscaling group loops of populateNuggets overwrite the
accumulated ASG list on every iteration instead of appending; with snap-1
registered as ami-1, launch configs lc-1 and lc-2 both on ami-1, asg-1 using
lc-1 and asg-2 using lc-2, both launch configs match the record, yet the
enriched record retains only the matches of the last processed name, asg-2,
and the match asg-1 of the earlier name lc-1 is lost. -/
theorem asg_matches_overwritten :
    (populateNuggets exProvider [exN1]).map (fun ns => ns.map Nugget.asgs)
      = Except.ok [["asg-2"]]
    ∧ (populateNuggets exProvider [exN1]).map (fun ns => ns.map Nugget.lcs)
      = Except.ok [["lc-1", "lc-2"]]
    ∧ lcInASGs "lc-1" [exAsg1, exAsg2] = (true, ["asg-1"])
    ∧ lcInASGs "lc-2" [exAsg1, exAsg2] = (true, ["asg-2"]) := by
  exact ⟨rfl, rfl, rfl, rfl⟩
